import Mathlib

/-!
Verification of the `mux` HTTP request multiplexer (a stripped-down
`http.ServeMux` with regular-expression patterns and mounting).

The development shallowly embeds `mux.go`:
  * the pattern table is an association list `List (String × MuxEntry)`
    (the Go `map[string]muxEntry`; Go map iteration order is unspecified,
    the list order models one concrete iteration order),
  * handlers are opaque identifiers (`Nat`), a nil handler is `none`,
  * Go panics are modelled by `Except` / a `panicked` outcome,
  * the external Go `regexp` package is modelled by an executable
    RE2-style engine (`regexpCompile`, `matchString`, `findStringSubmatch`,
    `subexpNames`) over a syntax subset covering the patterns used by the
    repository; unsupported syntax makes `regexpCompile` fail, which is
    only ever relied on for concrete patterns that Go also rejects,
  * the external Go `unicode`/`strings` packages are modelled by a
    `Unicode` record of character-classification functions, so statements
    hold for any classification; `asciiUnicode` instantiates it with the
    (exact) ASCII behaviour of Go's `unicode.IsLetter`, `unicode.IsLower`,
    `unicode.IsUpper` and `unicode.ToLower`.
-/

/-- Model of the Go `unicode` package (and `unicode.ToLower` as used by
`strings.ToLower`): character classification is external to the repository,
so the embedding is parameterised by it. -/
structure Unicode where
  isLetter : Char → Bool
  isLower : Char → Bool
  isUpper : Char → Bool
  toLower : Char → Char

/-- Instantiation of `Unicode` agreeing exactly with Go's `unicode` package
on ASCII characters (`IsLetter` = A-Z/a-z, `IsLower` = a-z, `IsUpper` = A-Z,
`ToLower` maps A-Z to a-z and is the identity otherwise). -/
def asciiUnicode : Unicode where
  isLetter c := c.isAlpha
  isLower c := ('a' ≤ c && c ≤ 'z')
  isUpper c := ('A' ≤ c && c ≤ 'Z')
  toLower c := if 'A' ≤ c && c ≤ 'Z' then Char.ofNat (c.toNat + 32) else c

/-- Like `asciiUnicode` but additionally classifying the CJK ideograph 中
(U+4E2D) the way Go's `unicode` package does: `unicode.IsLetter('中') = true`
(category Lo, "other letter"), `unicode.IsLower('中') = false`,
`unicode.IsUpper('中') = false`, `unicode.ToLower('中') = '中'`. -/
def cjkUnicode : Unicode where
  isLetter c := c.isAlpha || c = '中'
  isLower c := ('a' ≤ c && c ≤ 'z')
  isUpper c := ('A' ≤ c && c ≤ 'Z')
  toLower c := if 'A' ≤ c && c ≤ 'Z' then Char.ofNat (c.toNat + 32) else c

/-!  ## Model of the Go `regexp` package (external library)

A regular expression abstract syntax tree, a recursive-descent parser for
the RE2 syntax subset `( )`, `(?P<name> )`, `[ ]` classes with ranges and
negation, `.`, `^`, `$`, `|`, `*`, `+`, `?` and backslash escapes, and a
backtracking matcher whose priority order realises Go's leftmost,
backtracking-first match semantics.  Everything is structurally recursive
on explicit fuel so that terms evaluate inside the kernel. -/

/-- Regular expression AST.  `group idx name a` is a capturing group with
1-based index `idx`; `name = ""` means the group is unnamed. -/
inductive Re where
  | eps
  | ch (c : Char)
  | dot
  | cls (neg : Bool) (ranges : List (Char × Char))
  | cat (a b : Re)
  | alt (a b : Re)
  | star (a : Re)
  | plus (a : Re)
  | opt (a : Re)
  | group (idx : Nat) (name : String) (a : Re)
  | bol
  | eol
deriving DecidableEq, Repr

/-- Structural size of a regular expression, used to compute matcher fuel. -/
def reSize : Re → Nat
  | .cat a b => reSize a + reSize b + 1
  | .alt a b => reSize a + reSize b + 1
  | .star a => reSize a + 1
  | .plus a => reSize a + 1
  | .opt a => reSize a + 1
  | .group _ _ a => reSize a + 1
  | _ => 1

/-- Character-class membership: inside any of the ranges, flipped by `neg`. -/
def inClass (neg : Bool) (ranges : List (Char × Char)) (c : Char) : Bool :=
  let mem := ranges.any (fun r => decide (r.1 ≤ c) && decide (c ≤ r.2))
  if neg then !mem else mem

/-- Capture environment: group index paired with the captured substring;
later captures of the same group are consed on the front, so the head
occurrence is the most recent one (Go keeps the last capture). -/
abbrev Caps := List (Nat × String)

/-- Backtracking matcher.  `mrun fuel total re s caps` returns, in priority
order, every way `re` can match a prefix of `s`, as (remaining input,
captures).  `total` is the length of the whole subject string, so `^`
(`Re.bol`) holds exactly when nothing has been consumed from position 0,
and `$` (`Re.eol`) when the remaining input is empty.  Iterations of `*`/`+`
that consume nothing are not repeated (as in RE2).  The fuel is a modelling
artefact making the recursion structural; `matchFuel` below always provides
enough of it. -/
def mrun : Nat → Nat → Re → List Char → Caps → List (List Char × Caps)
  | 0, _, _, _, _ => []
  | fuel + 1, total, re, s, caps =>
    match re with
    | .eps => [(s, caps)]
    | .ch c =>
      match s with
      | [] => []
      | c2 :: rest => if c2 = c then [(rest, caps)] else []
    | .dot =>
      match s with
      | [] => []
      | c2 :: rest => if c2 = '\n' then [] else [(rest, caps)]
    | .cls neg ranges =>
      match s with
      | [] => []
      | c2 :: rest => if inClass neg ranges c2 then [(rest, caps)] else []
    | .bol => if s.length = total then [(s, caps)] else []
    | .eol => if s.isEmpty then [(s, caps)] else []
    | .cat a b =>
      (mrun fuel total a s caps).flatMap (fun sc => mrun fuel total b sc.1 sc.2)
    | .alt a b => mrun fuel total a s caps ++ mrun fuel total b s caps
    | .star a =>
      ((mrun fuel total a s caps).flatMap (fun sc =>
        if sc.1.length < s.length then mrun fuel total (.star a) sc.1 sc.2
        else [])) ++ [(s, caps)]
    | .plus a =>
      (mrun fuel total a s caps).flatMap (fun sc =>
        if sc.1.length < s.length then mrun fuel total (.star a) sc.1 sc.2
        else [(sc.1, sc.2)])
    | .opt a => mrun fuel total a s caps ++ [(s, caps)]
    | .group idx _ a =>
      (mrun fuel total a s caps).flatMap (fun sc =>
        [(sc.1, (idx, String.mk (s.take (s.length - sc.1.length))) :: sc.2)])

/-- Fuel sufficient for `mrun`: the recursion depth is bounded by the
expression size times the subject length. -/
def matchFuel (re : Re) (s : List Char) : Nat :=
  (reSize re + 1) * (s.length + 2) + 1

/-- All matches of `re` starting at position `k` of `s`, in priority order. -/
def matchAt (re : Re) (s : List Char) (k : Nat) : List (List Char × Caps) :=
  mrun (matchFuel re (s.drop k)) s.length re (s.drop k) []

/-- Leftmost match: the first starting position (0, 1, …) at which the
expression matches, together with the highest-priority match there;
returns (start position, remaining input, captures). -/
def findMatch (re : Re) (s : List Char) : Option (Nat × List Char × Caps) :=
  (List.range (s.length + 1)).findSome? (fun k =>
    match matchAt re s k with
    | [] => none
    | sc :: _ => some (k, sc.1, sc.2))

/-- Model of Go `Regexp.MatchString`: the expression matches somewhere in
the string. -/
def matchString (re : Re) (s : String) : Bool :=
  (findMatch re s.data).isSome

/-- Number of capturing groups. -/
def numGroups : Re → Nat
  | .cat a b => numGroups a + numGroups b
  | .alt a b => numGroups a + numGroups b
  | .star a => numGroups a
  | .plus a => numGroups a
  | .opt a => numGroups a
  | .group _ _ a => numGroups a + 1
  | _ => 0

/-- Names of the capturing groups in index (pattern-definition) order; an
unnamed group contributes `""`. -/
def groupNames : Re → List String
  | .cat a b => groupNames a ++ groupNames b
  | .alt a b => groupNames a ++ groupNames b
  | .star a => groupNames a
  | .plus a => groupNames a
  | .opt a => groupNames a
  | .group _ name a => name :: groupNames a
  | _ => []

/-- Model of Go `Regexp.SubexpNames`: index 0 (the whole match) has name
`""`, then the capture groups in definition order. -/
def subexpNames (re : Re) : List String :=
  "" :: groupNames re

/-- Model of Go `Regexp.FindStringSubmatch`: `none` when there is no match
(Go returns nil); otherwise the whole leftmost match followed by the text
of each capturing group, where a group that did not participate in the
match contributes the empty string. -/
def findStringSubmatch (re : Re) (s : String) : Option (List String) :=
  match findMatch re s.data with
  | none => none
  | some (k, rest, caps) =>
    let whole := String.mk ((s.data.drop k).take (s.data.length - k - rest.length))
    some (whole :: (List.range (numGroups re)).map (fun j =>
      match caps.lookup (j + 1) with
      | some str => str
      | none => ""))

/-- Translation of a backslash escape outside a character class; `none`
means the escape is invalid (as in RE2, e.g. backreferences). -/
def escRe (c : Char) : Option Re :=
  if c = 'd' then some (.cls false [('0', '9')])
  else if c = 'D' then some (.cls true [('0', '9')])
  else if c = 'w' then some (.cls false [('0', '9'), ('A', 'Z'), ('_', '_'), ('a', 'z')])
  else if c = 'W' then some (.cls true [('0', '9'), ('A', 'Z'), ('_', '_'), ('a', 'z')])
  else if c = 's' then some (.cls false [('\t', '\n'), ('\x0c', '\r'), (' ', ' ')])
  else if c = 'S' then some (.cls true [('\t', '\n'), ('\x0c', '\r'), (' ', ' ')])
  else if c = 'n' then some (.ch '\n')
  else if c = 't' then some (.ch '\t')
  else if c.isAlphanum then none
  else some (.ch c)

/-- Parse the items of a character class up to the closing `]`; an item is
a single (possibly escaped) character or a range `c-d`.  Returns the ranges
and the input after the `]`.  An empty or unterminated class fails. -/
def parseClassItems : Nat → List Char → List (Char × Char) →
    Option (List (Char × Char) × List Char)
  | 0, _, _ => none
  | fuel + 1, inp, acc =>
    match inp with
    | [] => none
    | ']' :: rest => if acc = [] then none else some (acc.reverse, rest)
    | c0 :: rest0 =>
      let first : Option (Char × List Char) :=
        if c0 = '\\' then
          match rest0 with
          | [] => none
          | e :: r => some (e, r)
        else some (c0, rest0)
      match first with
      | none => none
      | some (c, rest) =>
        match rest with
        | '-' :: d :: r2 =>
          if d = ']' then
            -- trailing '-' is a literal; reprocess it as the next item
            parseClassItems fuel rest ((c, c) :: acc)
          else if d = '\\' then
            match r2 with
            | [] => none
            | e :: r3 => parseClassItems fuel r3 ((c, e) :: acc)
          else parseClassItems fuel r2 ((c, d) :: acc)
        | _ => parseClassItems fuel rest ((c, c) :: acc)

/-- Characters allowed in a capture-group name. -/
def nameChar (c : Char) : Bool := c.isAlphanum || c = '_'

/-- Concatenation smart constructor used by the sequence parser. -/
def seqCat (a b : Re) : Re :=
  match b with
  | .eps => a
  | _ => .cat a b

/-- Recursive-descent parser for the RE2 syntax subset.
`parseRe fuel lvl inp gidx` parses at precedence level `lvl` (0 =
alternation, 1 = sequence, 2 = single atom with an optional postfix
operator) with `gidx` the next capture-group index, returning the parsed
expression, the remaining input and the next group index. -/
def parseRe : Nat → Nat → List Char → Nat → Option (Re × List Char × Nat)
  | 0, _, _, _ => none
  | fuel + 1, lvl, inp, gidx =>
    if lvl = 0 then
      match parseRe fuel 1 inp gidx with
      | none => none
      | some (e, inp2, g2) =>
        match inp2 with
        | '|' :: rest =>
          match parseRe fuel 0 rest g2 with
          | none => none
          | some (e2, inp3, g3) => some (.alt e e2, inp3, g3)
        | _ => some (e, inp2, g2)
    else if lvl = 1 then
      match inp with
      | [] => some (.eps, [], gidx)
      | ')' :: _ => some (.eps, inp, gidx)
      | '|' :: _ => some (.eps, inp, gidx)
      | _ =>
        match parseRe fuel 2 inp gidx with
        | none => none
        | some (e, inp2, g2) =>
          match parseRe fuel 1 inp2 g2 with
          | none => none
          | some (e2, inp3, g3) => some (seqCat e e2, inp3, g3)
    else
      let atom : Option (Re × List Char × Nat) :=
        match inp with
        | '(' :: '?' :: 'P' :: '<' :: rest =>
          let nm := rest.takeWhile (fun c => !(c = '>'))
          match rest.drop nm.length with
          | '>' :: rest3 =>
            if nm = [] ∨ !(nm.all nameChar) then none
            else
              match parseRe fuel 0 rest3 (gidx + 1) with
              | none => none
              | some (e, inp2, g2) =>
                match inp2 with
                | ')' :: inp3 => some (.group gidx (String.mk nm) e, inp3, g2)
                | _ => none
          | _ => none
        | '(' :: '?' :: _ => none
        | '(' :: rest =>
          match parseRe fuel 0 rest (gidx + 1) with
          | none => none
          | some (e, inp2, g2) =>
            match inp2 with
            | ')' :: inp3 => some (.group gidx "" e, inp3, g2)
            | _ => none
        | '[' :: '^' :: rest =>
          match parseClassItems fuel rest [] with
          | none => none
          | some (ranges, rest2) => some (.cls true ranges, rest2, gidx)
        | '[' :: rest =>
          match parseClassItems fuel rest [] with
          | none => none
          | some (ranges, rest2) => some (.cls false ranges, rest2, gidx)
        | '.' :: rest => some (.dot, rest, gidx)
        | '^' :: rest => some (.bol, rest, gidx)
        | '$' :: rest => some (.eol, rest, gidx)
        | '\\' :: c :: rest =>
          match escRe c with
          | none => none
          | some e => some (e, rest, gidx)
        | '\\' :: [] => none
        | '*' :: _ => none
        | '+' :: _ => none
        | '?' :: _ => none
        | '|' :: _ => none
        | ')' :: _ => none
        | c :: rest => some (.ch c, rest, gidx)
        | [] => none
      match atom with
      | none => none
      | some (e, inp2, g2) =>
        match inp2 with
        | '*' :: rest => some (.star e, rest, g2)
        | '+' :: rest => some (.plus e, rest, g2)
        | '?' :: rest => some (.opt e, rest, g2)
        | _ => some (e, inp2, g2)

/-- Model of Go `regexp.Compile`/`regexp.MustCompile`: parse the whole
pattern; `none` models the compilation error (`MustCompile` panic). -/
def regexpCompile (pattern : String) : Option Re :=
  match parseRe (4 * pattern.length + 8) 0 pattern.data 1 with
  | some (e, [], _) => some e
  | _ => none

/-!  ## The `mux` package -/

/-- Handlers (`http.HandlerFunc`) are opaque to the router; they are
modelled by identifiers.  A possibly-nil Go handler is `Option Handler`. -/
abbrev Handler := Nat

/-- Source `muxEntry`: handler together with whether the pattern is a regular
expression. -/
structure MuxEntry where
  handler : Handler
  regexp : Bool
deriving DecidableEq, Repr

/-- Source `Mux`: pattern table and not-found handler.  The Go `map[string]muxEntry`
is modelled as an association list; registration appends, and the list
order stands for one possible (unspecified) Go map iteration order. -/
structure Mux where
  m : List (String × MuxEntry)
  notFound : Handler
deriving DecidableEq, Repr

/-- The panics `register` can raise, in source order of the checks. -/
inductive RegisterError where
  | emptyPattern
  | missingLeadingSlash
  | trailingSlash
  | nilHandler
  | duplicatePattern
deriving DecidableEq, Repr

/-- Source `New`: allocates a router; panics (`none`) on a nil not-found handler. -/
def New (notFound : Option Handler) : Option Mux :=
  match notFound with
  | none => none
  | some h => some ⟨[], h⟩

/-- Source `register`: the checks in source order — empty pattern, literal-shape
checks (skipped for regular expressions and for the exact pattern `"/"`),
nil handler, duplicate — then insertion. -/
def Mux.register (mux : Mux) (pattern : String) (handler : Option Handler)
    (regexp : Bool) : Except RegisterError Mux :=
  if pattern = "" then .error .emptyPattern
  else if !regexp ∧ pattern ≠ "/" then
    if pattern.data.head? ≠ some '/' then .error .missingLeadingSlash
    else if pattern.data.getLast? = some '/' then .error .trailingSlash
    else match handler with
      | none => .error .nilHandler
      | some h =>
        if (mux.m.lookup pattern).isSome then .error .duplicatePattern
        else .ok ⟨mux.m ++ [(pattern, ⟨h, regexp⟩)], mux.notFound⟩
  else match handler with
    | none => .error .nilHandler
    | some h =>
      if (mux.m.lookup pattern).isSome then .error .duplicatePattern
      else .ok ⟨mux.m ++ [(pattern, ⟨h, regexp⟩)], mux.notFound⟩

/-- Source `HandleFunc`: register a literal pattern. -/
def Mux.HandleFunc (mux : Mux) (pattern : String) (handler : Option Handler) :
    Except RegisterError Mux :=
  mux.register pattern handler false

/-- Source `RegexpHandleFunc`: register a regular-expression pattern. -/
def Mux.RegexpHandleFunc (mux : Mux) (pattern : String) (handler : Option Handler) :
    Except RegisterError Mux :=
  mux.register pattern handler true

/-- Source `Mount`: for every entry of the submux's table, `HandleFunc` the
pattern with the prefix prepended — note the source calls `HandleFunc`,
i.e. registers with `regexp = false`, whatever the entry's flag was. -/
def Mux.Mount (mux : Mux) (pfx : String) (submux : Mux) :
    Except RegisterError Mux :=
  submux.m.foldlM (fun acc pe => acc.HandleFunc (pfx ++ pe.1) (some pe.2.handler)) mux

/-- A request URL: only the components the router reads (`Path`,
`RawQuery`); `url.URL.String` is modelled without escaping. -/
structure URL where
  path : String
  rawQuery : String
deriving DecidableEq, Repr

/-- Model of `url.URL.String` for the components carried here. -/
def URL.render (u : URL) : String :=
  u.path ++ (if u.rawQuery = "" then "" else "?" ++ u.rawQuery)

/-- The parts of an `http.Request` the router reads, plus the request
context modelled as an association list whose head is the innermost
(most recently added) `context.WithValue` binding. -/
structure Request where
  requestURI : String
  method : String
  url : URL
  protoMajor : Nat
  protoMinor : Nat
  ctx : List (String × String)
deriving DecidableEq, Repr

/-- Model of `http.Request.ProtoAtLeast`. -/
def Request.protoAtLeast (r : Request) (major minor : Nat) : Bool :=
  major < r.protoMajor || (r.protoMajor = major && minor ≤ r.protoMinor)

/-- Go run-time panics reachable from `ServeHTTP`. -/
inductive GoPanic where
  | mustCompile (pattern : String)
  | indexOutOfRange
deriving DecidableEq, Repr

/-- Everything `ServeHTTP` can do to the response (and which handler it
hands the request to), or the Go panic it raises. -/
inductive Outcome where
  | badRequest (closeConn : Bool)
  | redirect (url : String) (code : Nat)
  | handler (h : Handler) (r : Request)
  | notFound (r : Request)
  | panicked (p : GoPanic)
deriving DecidableEq, Repr

/-- Source `urlWithoutSlash`: compiles the pattern (panicking on a bad one, like
`MustCompile`), then reads the last byte of the path — an out-of-range
index when the path is empty — and strips the trailing `/` when the
stripped path equals the pattern or matches it as a regular expression.
The returned URL keeps only path and query, as in the source. -/
def urlWithoutSlash (path pattern : String) (u : URL) :
    Except GoPanic (URL × Bool) :=
  match regexpCompile pattern with
  | none => .error (.mustCompile pattern)
  | some re =>
    match path.data.getLast? with
    | none => .error .indexOutOfRange
    | some lastChar =>
      let stripped := String.mk path.data.dropLast
      if lastChar = '/' ∧ (stripped = pattern ∨ matchString re stripped) then
        .ok (⟨stripped, u.rawQuery⟩, true)
      else .ok (u, false)

/-- Source `isLower`: no rune of the string is a letter that is not lower case. -/
def isLower (U : Unicode) (s : String) : Bool :=
  s.data.all (fun c => !(U.isLetter c && !U.isLower c))

/-- Model of `strings.ToLower`. -/
def stringToLower (U : Unicode) (s : String) : String :=
  String.mk (s.data.map U.toLower)

/-- Source `addRegexpSubmatchesToContext`: for every subexpression name except
index 0 and empty names, push (name, submatch) onto the request context;
later (higher-index) bindings shadow earlier ones exactly as nested
`context.WithValue` calls do. -/
def addRegexpSubmatchesToContext (re : Re) (r : Request) : Request :=
  let submatches := (findStringSubmatch re r.url.path).getD []
  let ctx2 := (subexpNames re).enum.foldl
    (fun ctx iname =>
      if iname.1 = 0 ∨ iname.2 = "" then ctx
      else (iname.2, submatches.getD iname.1 "") :: ctx)
    r.ctx
  { r with ctx := ctx2 }

/-- The per-entry loop of `ServeHTTP`: trailing-slash redirect check, case
check, then the regexp or literal match check, in source order; falls
through to the not-found handler. -/
def serveLoop (U : Unicode) (r : Request) (nf : Handler) :
    List (String × MuxEntry) → Outcome
  | [] => .notFound r
  | (pattern, e) :: rest =>
    match urlWithoutSlash r.url.path pattern r.url with
    | .error p => .panicked p
    | .ok (u, true) => .redirect u.render 308
    | .ok (_, false) =>
      if r.method ≠ "CONNECT" ∧ isLower U r.url.path = false then
        .redirect (stringToLower U r.url.render) 308
      else if e.regexp then
        match regexpCompile pattern with
        | none => .panicked (.mustCompile pattern)
        | some re =>
          if matchString re r.url.path then
            .handler e.handler (addRegexpSubmatchesToContext re r)
          else serveLoop U r nf rest
      else if r.url.path = pattern then .handler e.handler r
      else serveLoop U r nf rest

/-- Source `ServeHTTP`: wildcard-URI special case, then the table scan. -/
def Mux.ServeHTTP (U : Unicode) (mux : Mux) (r : Request) : Outcome :=
  if r.requestURI = "*" then .badRequest (r.protoAtLeast 1 1)
  else serveLoop U r mux.notFound mux.m

/-!  ## Derived predicates used in the statements -/

/-- Whether, for a single table entry with pattern `pattern`, the
trailing-slash check of `urlWithoutSlash` fires on `path`: the path ends
in `/` and the slash-stripped path equals the pattern or matches it as a
regular expression.  `false` when the pattern does not compile or the path
is empty (those cases panic instead). -/
def slashHit (pattern path : String) : Bool :=
  match regexpCompile pattern with
  | none => false
  | some re =>
    match path.data.getLast? with
    | none => false
    | some lastChar =>
      if lastChar = '/' ∧ (String.mk path.data.dropLast = pattern ∨
          matchString re (String.mk path.data.dropLast)) then true
      else false

/-- Whether the match check of the dispatch loop succeeds for an entry:
regular-expression match for a regexp entry (false if the pattern does not
compile), exact string equality for a literal entry. -/
def entryMatch (e : MuxEntry) (pattern path : String) : Bool :=
  if e.regexp then
    match regexpCompile pattern with
    | none => false
    | some re => matchString re path
  else if path = pattern then true else false

/-- Variant of `serveLoop` with the case-canonicalization branch removed.  Stating
that dispatch of an all-lower-case path agrees with this function
expresses that such a path never takes the case-redirect branch. -/
def serveLoopNoCase (U : Unicode) (r : Request) (nf : Handler) :
    List (String × MuxEntry) → Outcome
  | [] => .notFound r
  | (pattern, e) :: rest =>
    match urlWithoutSlash r.url.path pattern r.url with
    | .error p => .panicked p
    | .ok (u, true) => .redirect u.render 308
    | .ok (_, false) =>
      if e.regexp then
        match regexpCompile pattern with
        | none => .panicked (.mustCompile pattern)
        | some re =>
          if matchString re r.url.path then
            .handler e.handler (addRegexpSubmatchesToContext re r)
          else serveLoopNoCase U r nf rest
      else if r.url.path = pattern then .handler e.handler r
      else serveLoopNoCase U r nf rest

/-- The context entries `addRegexpSubmatchesToContext` pushes, in
processing order: one binding per subexpression with non-empty name,
skipping index 0, valued at that group's submatch (empty string when the
group did not participate). -/
def ctxBindings (re : Re) (path : String) : List (String × String) :=
  (subexpNames re).enum.filterMap (fun iname =>
    if iname.1 = 0 ∨ iname.2 = "" then none
    else some (iname.2, ((findStringSubmatch re path).getD []).getD iname.1 ""))

/-!  ## Helper lemmas about one iteration of the dispatch loop -/

theorem serveLoop_cons (U : Unicode) (r : Request) (nf : Handler)
    (p : String) (e : MuxEntry) (rest : List (String × MuxEntry)) :
    serveLoop U r nf ((p, e) :: rest) =
      match urlWithoutSlash r.url.path p r.url with
      | .error pc => .panicked pc
      | .ok (u, true) => .redirect u.render 308
      | .ok (_, false) =>
        if r.method ≠ "CONNECT" ∧ isLower U r.url.path = false then
          .redirect (stringToLower U r.url.render) 308
        else if e.regexp then
          match regexpCompile p with
          | none => .panicked (.mustCompile p)
          | some re =>
            if matchString re r.url.path then
              .handler e.handler (addRegexpSubmatchesToContext re r)
            else serveLoop U r nf rest
        else if r.url.path = p then .handler e.handler r
        else serveLoop U r nf rest := rfl

theorem data_nil_eq_empty (s : String) (h : s.data = []) : s = "" := by
  cases s with
  | mk d =>
    simp only at h
    cases h
    rfl

theorem urlWithoutSlash_hit (pattern path : String) (u : URL)
    (hs : slashHit pattern path = true) :
    urlWithoutSlash path pattern u =
      .ok (⟨String.mk path.data.dropLast, u.rawQuery⟩, true) := by
  unfold slashHit at hs
  unfold urlWithoutSlash
  cases hc : regexpCompile pattern with
  | none => simp [hc] at hs
  | some re =>
    simp only [hc] at hs ⊢
    cases hl : path.data.getLast? with
    | none => simp [hl] at hs
    | some c =>
      simp only [hl] at hs ⊢
      split at hs
      · next hcond => rw [if_pos hcond]
      · simp at hs

theorem urlWithoutSlash_miss (pattern path : String) (u : URL) (re : Re)
    (hc : regexpCompile pattern = some re) (hp : path ≠ "")
    (hs : slashHit pattern path = false) :
    urlWithoutSlash path pattern u = .ok (u, false) := by
  unfold slashHit at hs
  unfold urlWithoutSlash
  simp only [hc] at hs ⊢
  cases hl : path.data.getLast? with
  | none =>
    exfalso
    rw [List.getLast?_eq_none_iff] at hl
    exact hp (data_nil_eq_empty path hl)
  | some c =>
    simp only [hl] at hs ⊢
    split at hs
    · simp at hs
    · next hcond => rw [if_neg hcond]

theorem serveLoop_cons_slash (U : Unicode) (r : Request) (nf : Handler)
    (p : String) (e : MuxEntry) (rest : List (String × MuxEntry))
    (hs : slashHit p r.url.path = true) :
    serveLoop U r nf ((p, e) :: rest) =
      .redirect (URL.render ⟨String.mk r.url.path.data.dropLast, r.url.rawQuery⟩) 308 := by
  rw [serveLoop_cons]
  rw [urlWithoutSlash_hit p r.url.path r.url hs]

theorem serveLoop_cons_case (U : Unicode) (r : Request) (nf : Handler)
    (p : String) (e : MuxEntry) (rest : List (String × MuxEntry)) (re : Re)
    (hc : regexpCompile p = some re) (hp : r.url.path ≠ "")
    (hs : slashHit p r.url.path = false)
    (hm : r.method ≠ "CONNECT") (hl : isLower U r.url.path = false) :
    serveLoop U r nf ((p, e) :: rest) =
      .redirect (stringToLower U r.url.render) 308 := by
  rw [serveLoop_cons]
  rw [urlWithoutSlash_miss p r.url.path r.url re hc hp hs]
  simp only [if_pos (And.intro hm hl)]

theorem serveLoop_cons_skip (U : Unicode) (r : Request) (nf : Handler)
    (p : String) (e : MuxEntry) (rest : List (String × MuxEntry)) (re : Re)
    (hc : regexpCompile p = some re) (hp : r.url.path ≠ "")
    (hs : slashHit p r.url.path = false)
    (hlow : r.method = "CONNECT" ∨ isLower U r.url.path = true)
    (hm : entryMatch e p r.url.path = false) :
    serveLoop U r nf ((p, e) :: rest) = serveLoop U r nf rest := by
  rw [serveLoop_cons]
  rw [urlWithoutSlash_miss p r.url.path r.url re hc hp hs]
  have hguard : ¬(r.method ≠ "CONNECT" ∧ isLower U r.url.path = false) := by
    rcases hlow with h | h
    · intro hx; exact hx.1 h
    · intro hx; rw [h] at hx; exact absurd hx.2 (by simp)
  rw [if_neg hguard]
  unfold entryMatch at hm
  cases e with
  | mk hdl rg =>
    cases rg with
    | true =>
      simp [hc] at hm
      simp [hc, hm]
    | false =>
      simp at hm
      simp [hm]

theorem serveLoop_cons_match_regexp (U : Unicode) (r : Request) (nf : Handler)
    (p : String) (e : MuxEntry) (rest : List (String × MuxEntry)) (re : Re)
    (hc : regexpCompile p = some re) (hp : r.url.path ≠ "")
    (hs : slashHit p r.url.path = false)
    (hlow : r.method = "CONNECT" ∨ isLower U r.url.path = true)
    (hreg : e.regexp = true) (hm : matchString re r.url.path = true) :
    serveLoop U r nf ((p, e) :: rest) =
      .handler e.handler (addRegexpSubmatchesToContext re r) := by
  rw [serveLoop_cons]
  rw [urlWithoutSlash_miss p r.url.path r.url re hc hp hs]
  have hguard : ¬(r.method ≠ "CONNECT" ∧ isLower U r.url.path = false) := by
    rcases hlow with h | h
    · intro hx; exact hx.1 h
    · intro hx; rw [h] at hx; exact absurd hx.2 (by simp)
  rw [if_neg hguard]
  simp [hreg, hc, hm]

theorem serveLoop_cons_match_literal (U : Unicode) (r : Request) (nf : Handler)
    (p : String) (e : MuxEntry) (rest : List (String × MuxEntry)) (re : Re)
    (hc : regexpCompile p = some re) (hp : r.url.path ≠ "")
    (hs : slashHit p r.url.path = false)
    (hlow : r.method = "CONNECT" ∨ isLower U r.url.path = true)
    (hreg : e.regexp = false) (hm : r.url.path = p) :
    serveLoop U r nf ((p, e) :: rest) = .handler e.handler r := by
  rw [serveLoop_cons]
  rw [urlWithoutSlash_miss p r.url.path r.url re hc hp hs]
  have hguard : ¬(r.method ≠ "CONNECT" ∧ isLower U r.url.path = false) := by
    rcases hlow with h | h
    · intro hx; exact hx.1 h
    · intro hx; rw [h] at hx; exact absurd hx.2 (by simp)
  rw [if_neg hguard]
  simp [hreg, hm]

/-!  ## Helper lemmas about registration and mounting -/

theorem register_ok_spec (mux : Mux) (p : String) (hh : Option Handler)
    (fl : Bool) (mux2 : Mux) (h : mux.register p hh fl = .ok mux2) :
    ∃ hdl, hh = some hdl ∧ mux2.m = mux.m ++ [(p, ⟨hdl, fl⟩)] ∧
      mux2.notFound = mux.notFound ∧ mux.m.lookup p = none ∧
      (fl = false →
        (p = "/" ∨ (p.data.head? = some '/' ∧ p.data.getLast? ≠ some '/'))) := by
  unfold Mux.register at h
  split at h
  · simp at h
  · next hne =>
    split at h
    · next hlit =>
      split at h
      · simp at h
      · next hhead =>
        split at h
        · simp at h
        · next hlast =>
          cases hh with
          | none => simp at h
          | some hdl =>
            simp only [] at h
            split at h
            · simp at h
            · next hdup =>
              refine ⟨hdl, rfl, ?_, ?_, ?_, ?_⟩
              · cases h; rfl
              · cases h; rfl
              · exact Option.not_isSome_iff_eq_none.mp hdup
              · intro _
                right
                exact ⟨not_not.mp hhead, hlast⟩
    · next hlit =>
      cases hh with
      | none => simp at h
      | some hdl =>
        simp only [] at h
        split at h
        · simp at h
        · next hdup =>
          refine ⟨hdl, rfl, ?_, ?_, ?_, ?_⟩
          · cases h; rfl
          · cases h; rfl
          · exact Option.not_isSome_iff_eq_none.mp hdup
          · intro hfl
            left
            rw [hfl] at hlit
            simp at hlit
            exact hlit

theorem mount_fold_ok (pfx : String) :
    ∀ (l : List (String × MuxEntry)) (mux mux2 : Mux),
      l.foldlM (fun acc pe => acc.HandleFunc (pfx ++ pe.1) (some pe.2.handler)) mux
        = .ok mux2 →
      (∀ x, x ∈ mux.m → x ∈ mux2.m) ∧
      (∀ p e, (p, e) ∈ l → ((pfx ++ p, MuxEntry.mk e.handler false) ∈ mux2.m ∧
        (pfx ++ p = "/" ∨
          ((pfx ++ p).data.head? = some '/' ∧
            (pfx ++ p).data.getLast? ≠ some '/')))) := by
  intro l
  induction l with
  | nil =>
    intro mux mux2 h
    simp only [List.foldlM_nil] at h
    cases h
    exact ⟨fun x hx => hx, fun p e hmem => absurd hmem (List.not_mem_nil _)⟩
  | cons pe l ih =>
    intro mux mux2 h
    simp only [List.foldlM_cons] at h
    cases hstep : mux.HandleFunc (pfx ++ pe.1) (some pe.2.handler) with
    | error err =>
      rw [hstep] at h
      exact Except.noConfusion h
    | ok mid =>
      rw [hstep] at h
      have h2 : l.foldlM
          (fun acc pe => acc.HandleFunc (pfx ++ pe.1) (some pe.2.handler)) mid
          = .ok mux2 := h
      obtain ⟨hpres, hmem⟩ := ih mid mux2 h2
      obtain ⟨hdl, hsome, hm, _, _, hshape⟩ :=
        register_ok_spec mux (pfx ++ pe.1) (some pe.2.handler) false mid hstep
      have hdl_eq : hdl = pe.2.handler := by
        injection hsome with hh2
        exact hh2.symm
      constructor
      · intro x hx
        exact hpres x (by rw [hm]; exact List.mem_append_left _ hx)
      · intro p e hpe
        rcases List.mem_cons.mp hpe with heq | htl
        · cases heq
          refine ⟨hpres _ ?_, hshape rfl⟩
          rw [hm, hdl_eq]
          simp
        · exact hmem p e htl

/-!  ## Helper lemmas about context lookup (the `context.WithValue` model) -/

theorem lookup_append_cases (a : String) :
    ∀ (l1 l2 : List (String × String)),
      (l1 ++ l2).lookup a =
        match l1.lookup a with
        | some v => some v
        | none => l2.lookup a := by
  intro l1
  induction l1 with
  | nil => intro l2; rfl
  | cons kv rest ih =>
    intro l2
    cases kv with
    | mk k v =>
      cases hk : a == k with
      | true => simp [List.lookup, hk]
      | false => simp [List.lookup, hk, ih l2]

theorem lookup_of_unique (name : String) (v : String) :
    ∀ (bl : List (String × String)),
      (name, v) ∈ bl → (∀ w, (name, w) ∈ bl → w = v) →
      bl.lookup name = some v := by
  intro bl
  induction bl with
  | nil => intro hmem _; exact absurd hmem (List.not_mem_nil _)
  | cons kv rest ih =>
    intro hmem huniq
    cases kv with
    | mk k w =>
      cases hk : name == k with
      | true =>
        have hkeq : name = k := by
          exact eq_of_beq hk
        have : w = v := huniq w (by rw [hkeq]; exact List.mem_cons_self _ _)
        simp [List.lookup, hk, this]
      | false =>
        have hne : ¬(name = k) := by
          intro hx
          rw [hx] at hk
          simp at hk
        have hmem2 : (name, v) ∈ rest := by
          rcases List.mem_cons.mp hmem with heq | htl
          · exact absurd (congrArg Prod.fst heq) hne
          · exact htl
        simp [List.lookup, hk]
        exact ih hmem2 (fun w2 hw2 => huniq w2 (List.mem_cons_of_mem _ hw2))

theorem lookup_of_not_key (name : String) :
    ∀ (bl : List (String × String)),
      name ∉ bl.map Prod.fst → bl.lookup name = none := by
  intro bl
  induction bl with
  | nil => intro _; rfl
  | cons kv rest ih =>
    intro hnot
    cases kv with
    | mk k w =>
      have hne : ¬(name = k) := by
        intro hx
        exact hnot (by rw [hx]; simp)
      have hk : (name == k) = false := by
        simp [hne]
      simp only [List.lookup, hk]
      exact ih (fun hx => hnot (List.mem_cons_of_mem _ hx))

theorem foldl_push_filterMap (f : Nat × String → Option (String × String)) :
    ∀ (l : List (Nat × String)) (init : List (String × String)),
      l.foldl (fun acc x =>
        match f x with
        | none => acc
        | some y => y :: acc) init
        = (l.filterMap f).reverse ++ init := by
  intro l
  induction l with
  | nil => intro init; simp
  | cons a l ih =>
    intro init
    simp only [List.foldl_cons, List.filterMap_cons]
    cases hf : f a with
    | none => simp [ih]
    | some b =>
      rw [ih (b :: init)]
      simp

/-- The request produced by `addRegexpSubmatchesToContext` differs from the
original only by prefixing the reversed bindings list to the context. -/
theorem addCtx_spec (re : Re) (r : Request) :
    addRegexpSubmatchesToContext re r =
      { r with ctx := (ctxBindings re r.url.path).reverse ++ r.ctx } := by
  have hfun : (fun (ctx : List (String × String)) (iname : Nat × String) =>
      if iname.1 = 0 ∨ iname.2 = "" then ctx
      else (iname.2,
        ((findStringSubmatch re r.url.path).getD []).getD iname.1 "") :: ctx)
      = (fun acc x =>
        match (if x.1 = 0 ∨ x.2 = "" then none
          else some (x.2,
            ((findStringSubmatch re r.url.path).getD []).getD x.1 "")) with
        | none => acc
        | some y => y :: acc) := by
    funext acc x
    by_cases h : x.1 = 0 ∨ x.2 = ""
    · simp [h]
    · simp [h]
  have key : (subexpNames re).enum.foldl
      (fun ctx iname =>
        if iname.1 = 0 ∨ iname.2 = "" then ctx
        else (iname.2,
          ((findStringSubmatch re r.url.path).getD []).getD iname.1 "") :: ctx)
      r.ctx
      = ((subexpNames re).enum.filterMap (fun iname =>
          if iname.1 = 0 ∨ iname.2 = "" then none
          else some (iname.2,
            ((findStringSubmatch re r.url.path).getD []).getD iname.1 ""))).reverse
        ++ r.ctx := by
    rw [hfun]
    exact foldl_push_filterMap _ _ r.ctx
  unfold addRegexpSubmatchesToContext ctxBindings
  dsimp only
  rw [key]

theorem getElem_unique_of_count_one :
    ∀ (l : List String) (i j : Nat) (x : String),
      l[i]? = some x → l[j]? = some x → l.count x = 1 → i = j := by
  intro l
  induction l with
  | nil => intro i j x hi _ _; simp at hi
  | cons a l ih =>
    intro i j x hi hj hc
    cases i with
    | zero =>
      cases j with
      | zero => rfl
      | succ j =>
        exfalso
        simp only [List.getElem?_cons_zero, Option.some.injEq] at hi
        have hxl : x ∈ l :=
          List.getElem?_mem (by simpa using hj)
        rw [List.count_cons] at hc
        rw [hi] at hc
        simp at hc
        exact (List.count_eq_zero.mp hc) hxl
    | succ i =>
      cases j with
      | zero =>
        exfalso
        simp only [List.getElem?_cons_zero, Option.some.injEq] at hj
        have hxl : x ∈ l :=
          List.getElem?_mem (by simpa using hi)
        rw [List.count_cons] at hc
        rw [hj] at hc
        simp at hc
        exact (List.count_eq_zero.mp hc) hxl
      | succ j =>
        simp only [List.getElem?_cons_succ] at hi hj
        have hne : ¬(x = a) := by
          intro hx
          have hxl : x ∈ l := List.getElem?_mem hi
          rw [List.count_cons] at hc
          simp [hx] at hc
          exact (List.count_eq_zero.mp hc) (hx ▸ hxl)
        have hcl : l.count x = 1 := by
          rw [List.count_cons] at hc
          have hne2 : ¬(a = x) := fun h => hne h.symm
          simp [hne2] at hc
          exact hc
        exact congrArg Nat.succ (ih i j x hi hj hcl)

/-- With a non-empty request path, the dispatch loop never raises the
out-of-range index panic: the only panics left are pattern-compilation
ones. -/
theorem serveLoop_no_index_panic (U : Unicode) (r : Request) (nf : Handler)
    (hp : r.url.path ≠ "") :
    ∀ l, serveLoop U r nf l ≠ .panicked .indexOutOfRange := by
  intro l
  induction l with
  | nil => simp [serveLoop]
  | cons pe rest ih =>
    cases pe with
    | mk p e =>
      rw [serveLoop_cons]
      cases hu : urlWithoutSlash r.url.path p r.url with
      | error pc =>
        have hpc : pc = .mustCompile p := by
          unfold urlWithoutSlash at hu
          cases hc : regexpCompile p with
          | none =>
            rw [hc] at hu
            injection hu with hu2
            exact hu2.symm
          | some re2 =>
            simp only [hc] at hu
            cases hl : r.url.path.data.getLast? with
            | none =>
              exfalso
              rw [List.getLast?_eq_none_iff] at hl
              exact hp (data_nil_eq_empty _ hl)
            | some c =>
              simp only [hl] at hu
              split at hu <;> simp at hu
        rw [hpc]
        simp
      | ok ub =>
        cases ub with
        | mk u b =>
          cases b with
          | true => simp
          | false =>
            simp only []
            split
            · simp
            · split
              · cases hc : regexpCompile p with
                | none => simp [hc]
                | some re2 =>
                  simp only [hc]
                  split
                  · simp
                  · exact ih
              · split
                · simp
                · exact ih

/-!  ## The claims -/

/-- C10: a router with an empty pattern table dispatches every
non-wildcard request to the not-found handler with the original request;
neither canonicalization redirect can be issued because both checks live
inside the per-entry loop, which has no entries to iterate. -/
theorem serve_empty_table_not_found (U : Unicode) (mux : Mux) (r : Request)
    (hm : mux.m = []) (hstar : r.requestURI ≠ "*") :
    Mux.ServeHTTP U mux r = .notFound r := by
  unfold Mux.ServeHTTP
  rw [if_neg hstar, hm]
  rfl

/-- Witness for C10: an empty router sends a path with a trailing slash
and an upper-case letter straight to not-found. -/
theorem serve_empty_table_not_found_witness :
    Mux.ServeHTTP asciiUnicode ⟨[], 7⟩ ⟨"/A/", "GET", ⟨"/A/", ""⟩, 1, 1, []⟩ =
      .notFound ⟨"/A/", "GET", ⟨"/A/", ""⟩, 1, 1, []⟩ :=
  serve_empty_table_not_found asciiUnicode ⟨[], 7⟩
    ⟨"/A/", "GET", ⟨"/A/", ""⟩, 1, 1, []⟩ rfl (by decide)

/-- C8: the pattern `"/a("` passes literal validation at registration, but
since the dispatcher compiles every iterated pattern as a regular
expression inside the trailing-slash check, every later non-wildcard
dispatch against that table raises the `MustCompile` panic before any
match test. -/
theorem register_invalid_regex_literal_panics (U : Unicode) (nf h1 : Handler)
    (r : Request) (hstar : r.requestURI ≠ "*") :
    Mux.HandleFunc ⟨[], nf⟩ "/a(" (some h1)
        = .ok ⟨[("/a(", ⟨h1, false⟩)], nf⟩ ∧
      Mux.ServeHTTP U ⟨[("/a(", ⟨h1, false⟩)], nf⟩ r
        = .panicked (.mustCompile "/a(") := by
  constructor
  · rfl
  · unfold Mux.ServeHTTP
    rw [if_neg hstar, serveLoop_cons]
    have hc : regexpCompile "/a(" = none := by decide
    simp only [urlWithoutSlash, hc]

/-- Witness for C8: concrete dispatch of `GET /zzz` against the router
holding only the literal pattern `"/a("` panics with the compilation
error, while registration succeeded. -/
theorem register_invalid_regex_literal_panics_witness :
    Mux.HandleFunc ⟨[], 0⟩ "/a(" (some 1)
        = .ok ⟨[("/a(", ⟨1, false⟩)], 0⟩ ∧
      Mux.ServeHTTP asciiUnicode ⟨[("/a(", ⟨1, false⟩)], 0⟩
        ⟨"/zzz", "GET", ⟨"/zzz", ""⟩, 1, 1, []⟩
        = .panicked (.mustCompile "/a(") :=
  register_invalid_regex_literal_panics asciiUnicode 0 1
    ⟨"/zzz", "GET", ⟨"/zzz", ""⟩, 1, 1, []⟩ (by decide)

/-- C9: with a non-empty table, dispatching a non-wildcard request whose
URL path is the empty string hits the unguarded `path[len(path)-1]` index
in `urlWithoutSlash` (provided the first-iterated pattern compiles, which
is the panic that would otherwise fire first); conversely a request with
a non-empty path never raises the out-of-range index panic. -/
theorem serve_empty_path_index_panic (U : Unicode) (mux : Mux) (r : Request)
    (p : String) (e : MuxEntry) (rest : List (String × MuxEntry))
    (hm : mux.m = (p, e) :: rest) (hstar : r.requestURI ≠ "*")
    (hpath : r.url.path = "") (hc : (regexpCompile p).isSome = true) :
    Mux.ServeHTTP U mux r = .panicked .indexOutOfRange ∧
      ∀ r2 : Request, r2.url.path ≠ "" →
        Mux.ServeHTTP U mux r2 ≠ .panicked .indexOutOfRange := by
  constructor
  · unfold Mux.ServeHTTP
    rw [if_neg hstar, hm, serveLoop_cons]
    obtain ⟨re, hre⟩ := Option.isSome_iff_exists.mp hc
    have hdata : r.url.path.data = [] := by rw [hpath]
    simp [urlWithoutSlash, hre, hdata]
  · intro r2 hp2
    unfold Mux.ServeHTTP
    split
    · simp
    · exact serveLoop_no_index_panic U r2 mux.notFound hp2 mux.m

/-- Witness for C9: a CONNECT request with empty path against a one-entry
router panics with the out-of-range index. -/
theorem serve_empty_path_index_panic_witness :
    Mux.ServeHTTP asciiUnicode ⟨[("/x", ⟨1, false⟩)], 0⟩
      ⟨"", "CONNECT", ⟨"", ""⟩, 1, 1, []⟩ = .panicked .indexOutOfRange :=
  (serve_empty_path_index_panic asciiUnicode ⟨[("/x", ⟨1, false⟩)], 0⟩
    ⟨"", "CONNECT", ⟨"", ""⟩, 1, 1, []⟩ "/x" ⟨1, false⟩ [] rfl (by decide)
    rfl (by decide)).1

/-- C3: when the pattern is already in the table, registration always
fails (the pure model returns an error and produces no new table, so the
table is unchanged — registration is neither idempotent nor overwriting);
and whenever the other checks pass (handler non-nil, pattern validates
for the flag used — always the case for a pattern that entered the table
through the same wrapper), the error is precisely the duplicate-pattern
panic.  This covers `HandleFunc`, `RegexpHandleFunc` and the registrations
`Mount` performs, all of which go through `register`. -/
theorem register_duplicate_fatal (mux : Mux) (p : String) (hh : Option Handler)
    (fl : Bool) (hdup : (mux.m.lookup p).isSome = true) :
    (∃ err, mux.register p hh fl = .error err) ∧
      (hh ≠ none →
        p ≠ "" →
        (fl = true ∨ p = "/" ∨
          (p.data.head? = some '/' ∧ p.data.getLast? ≠ some '/')) →
        mux.register p hh fl = .error .duplicatePattern) := by
  constructor
  · unfold Mux.register
    split
    · exact ⟨_, rfl⟩
    · split
      · split
        · exact ⟨_, rfl⟩
        · split
          · exact ⟨_, rfl⟩
          · cases hh with
            | none => exact ⟨_, rfl⟩
            | some hdl =>
              simp only [if_pos hdup]
              exact ⟨_, rfl⟩
      · cases hh with
        | none => exact ⟨_, rfl⟩
        | some hdl =>
          simp only [if_pos hdup]
          exact ⟨_, rfl⟩
  · intro hnn hne hshape
    unfold Mux.register
    rw [if_neg hne]
    by_cases hlit : (!fl : Bool) = true ∧ p ≠ "/"
    · rw [if_pos hlit]
      have hsh : p.data.head? = some '/' ∧ p.data.getLast? ≠ some '/' := by
        rcases hshape with hfl | hslash | hsh
        · exfalso
          rw [hfl] at hlit
          simp at hlit
        · exact absurd hslash hlit.2
        · exact hsh
      rw [if_neg (by simp [hsh.1])]
      rw [if_neg hsh.2]
      cases hh with
      | none => exact absurd rfl hnn
      | some hdl => simp only [if_pos hdup]
    · rw [if_neg hlit]
      cases hh with
      | none => exact absurd rfl hnn
      | some hdl => simp only [if_pos hdup]

/-- Witness for C3: registering `"/a"` twice yields the duplicate-pattern
panic. -/
theorem register_duplicate_fatal_witness :
    Mux.register ⟨[("/a", ⟨1, false⟩)], 0⟩ "/a" (some 2) false
      = .error .duplicatePattern :=
  (register_duplicate_fatal ⟨[("/a", ⟨1, false⟩)], 0⟩ "/a" (some 2) false
    (by decide)).2 (by simp) (by decide) (by decide)

/-- C5: for a fresh pattern and a non-nil handler, registration succeeds
exactly when the pattern is non-empty and, for a literal registration,
is `"/"` or starts with `/` without ending in `/`; each failure raises
the specific panic the source raises, and a regular-expression pattern is
accepted whenever non-empty, with no syntax check at registration. -/
theorem register_validation (mux : Mux) (p : String) (hdl : Handler)
    (fl : Bool) (hfresh : mux.m.lookup p = none) :
    ((mux.register p (some hdl) fl).isOk = true ↔
      (p ≠ "" ∧ (fl = true ∨ p = "/" ∨
        (p.data.head? = some '/' ∧ p.data.getLast? ≠ some '/')))) ∧
    (p = "" → mux.register p (some hdl) fl = .error .emptyPattern) ∧
    (fl = false → p ≠ "" → p ≠ "/" → p.data.head? ≠ some '/' →
      mux.register p (some hdl) fl = .error .missingLeadingSlash) ∧
    (fl = false → p ≠ "/" → p.data.head? = some '/' →
      p.data.getLast? = some '/' →
      mux.register p (some hdl) fl = .error .trailingSlash) ∧
    (fl = true → p ≠ "" → (mux.register p (some hdl) fl).isOk = true) := by
  have hdupf : (mux.m.lookup p).isSome = false := by simp [hfresh]
  refine ⟨⟨?_, ?_⟩, ?_, ?_, ?_, ?_⟩
  · -- success implies the shape conditions
    intro hok
    by_cases h1 : p = ""
    · exfalso
      unfold Mux.register at hok
      rw [if_pos h1] at hok
      simp [Except.isOk, Except.toBool] at hok
    refine ⟨h1, ?_⟩
    cases fl with
    | true => exact Or.inl rfl
    | false =>
      by_cases h3 : p = "/"
      · exact Or.inr (Or.inl h3)
      · right; right
        unfold Mux.register at hok
        rw [if_neg h1] at hok
        rw [if_pos (And.intro (by simp) h3)] at hok
        by_cases h4 : p.data.head? ≠ some '/'
        · rw [if_pos h4] at hok
          simp [Except.isOk, Except.toBool] at hok
        · rw [if_neg h4] at hok
          by_cases h5 : p.data.getLast? = some '/'
          · rw [if_pos h5] at hok
            simp [Except.isOk, Except.toBool] at hok
          · exact ⟨not_not.mp h4, h5⟩
  · -- the shape conditions imply success
    rintro ⟨h1, hsh⟩
    unfold Mux.register
    rw [if_neg h1]
    by_cases hlit : (!fl : Bool) = true ∧ p ≠ "/"
    · rw [if_pos hlit]
      have hsh2 : p.data.head? = some '/' ∧ p.data.getLast? ≠ some '/' := by
        rcases hsh with hfl | hslash | hsh2
        · exfalso; rw [hfl] at hlit; simp at hlit
        · exact absurd hslash hlit.2
        · exact hsh2
      rw [if_neg (by simp [hsh2.1])]
      rw [if_neg hsh2.2]
      simp only [if_neg (by simp [hdupf] : ¬((mux.m.lookup p).isSome = true))]
      rfl
    · rw [if_neg hlit]
      simp only [if_neg (by simp [hdupf] : ¬((mux.m.lookup p).isSome = true))]
      rfl
  · -- empty pattern
    intro h1
    unfold Mux.register
    rw [if_pos h1]
  · -- missing leading slash
    intro hfl h1 h3 h4
    unfold Mux.register
    rw [if_neg h1]
    rw [if_pos (And.intro (by simp [hfl]) h3)]
    rw [if_pos h4]
  · -- trailing slash
    intro hfl h3 h4 h5
    unfold Mux.register
    have h1 : p ≠ "" := by
      intro hx
      rw [hx] at h4
      simp at h4
    rw [if_neg h1]
    rw [if_pos (And.intro (by simp [hfl]) h3)]
    rw [if_neg (by simp [h4])]
    rw [if_pos h5]
  · -- regexp accepted whenever non-empty
    intro hfl h1
    unfold Mux.register
    rw [if_neg h1]
    rw [if_neg (by simp [hfl] : ¬((!fl : Bool) = true ∧ p ≠ "/"))]
    simp only [if_neg (by simp [hdupf] : ¬((mux.m.lookup p).isSome = true))]
    rfl

/-- Witness for C5: the regular-expression pattern `"a("` (no leading
slash, invalid regex syntax) registers successfully, and its own literal
registration would not. -/
theorem register_validation_witness :
    ((Mux.register ⟨[], 0⟩ "a(" (some 1) true).isOk = true) ∧
      Mux.register ⟨[], 0⟩ "a(" (some 1) false
        = .error .missingLeadingSlash :=
  ⟨(register_validation ⟨[], 0⟩ "a(" 1 true rfl).2.2.2.2 rfl (by decide),
    (register_validation ⟨[], 0⟩ "a(" 1 false rfl).2.2.1 rfl (by decide)
      (by decide) (by decide)⟩

/-- C1 (amended): a successful `Mount` copies every source entry to
`prefix ++ pattern` with the handler preserved, but — because `Mount`
calls `HandleFunc` — always with the regular-expression flag cleared to
`false`, after passing the full literal-pattern validation and the
duplicate check of `register`; the source entry's flag is NOT preserved. -/
theorem mount_copies_entries_as_literal (mux submux mux2 : Mux) (pfx : String)
    (h : mux.Mount pfx submux = .ok mux2) :
    ∀ p e, (p, e) ∈ submux.m →
      ((pfx ++ p, MuxEntry.mk e.handler false) ∈ mux2.m ∧
        (pfx ++ p = "/" ∨
          ((pfx ++ p).data.head? = some '/' ∧
            (pfx ++ p).data.getLast? ≠ some '/'))) := by
  intro p e hmem
  exact (mount_fold_ok pfx submux.m mux mux2 h).2 p e hmem

/-- Witness for C1 (amended): mounting a single-regexp-entry router under
the empty prefix lands the pattern in the destination with `regexp =
false`. -/
theorem mount_copies_entries_as_literal_witness :
    (("" ++ "/a$", MuxEntry.mk 1 false) ∈
      (⟨[("/a$", ⟨1, false⟩)], 9⟩ : Mux).m) ∧
    ("" ++ "/a$" = "/" ∨
      (("" ++ "/a$").data.head? = some '/' ∧
        ("" ++ "/a$").data.getLast? ≠ some '/')) :=
  mount_copies_entries_as_literal ⟨[], 9⟩ ⟨[("/a$", ⟨1, true⟩)], 0⟩
    ⟨[("/a$", ⟨1, false⟩)], 9⟩ "" rfl "/a$" ⟨1, true⟩ (by decide)

/-- Counterexample to C1 as stated: the source router's only entry is the
regular-expression pattern `"/a$"` (flag `true`), yet after mounting it
under the empty prefix the destination's entry for `"/a$"` carries flag
`false` — the is-regular-expression flag is not preserved, contradicting
the claim that mounting a source whose only entry is a regexp pattern
yields a regexp entry in the destination. -/
theorem mount_drops_regexp_flag_counterexample :
    Mux.Mount ⟨[], 9⟩ "" ⟨[("/a$", ⟨1, true⟩)], 0⟩
        = .ok ⟨[("/a$", ⟨1, false⟩)], 9⟩ ∧
      (Mux.mk [("/a$", ⟨1, false⟩)] 9).m.lookup "/a$"
        = some ⟨1, false⟩ ∧
      MuxEntry.regexp ⟨1, false⟩ ≠ true := by
  refine ⟨rfl, by decide, by decide⟩

theorem slashHit_path_ne_empty (pattern path : String)
    (h : slashHit pattern path = true) : path ≠ "" := by
  intro hx
  unfold slashHit at h
  cases hc : regexpCompile pattern with
  | none => rw [hc] at h; simp at h
  | some re =>
    simp only [hc] at h
    have hdata : path.data = [] := by rw [hx]
    simp [hdata] at h

/-- C2 (amended): if the path ends in `/` and its slash-stripped form
equals or regex-matches the pattern of some entry, the dispatcher
308-redirects to the slash-stripped path with the query preserved and
invokes no handler — provided the path's letters are all lower case (or
the method is CONNECT) and no entry iterated before the first
slash-hitting one matches the full path itself (each earlier entry either
slash-hits too, which yields the same redirect, or fails its match
check; their patterns must compile).  Without those provisos the
iteration order can hand the request to a handler first (see the
counterexample). -/
theorem serve_trailing_slash_redirect (U : Unicode) (mux : Mux) (r : Request)
    (pre post : List (String × MuxEntry)) (p : String) (e : MuxEntry)
    (hm : mux.m = pre ++ (p, e) :: post)
    (hstar : r.requestURI ≠ "*")
    (hlow : r.method = "CONNECT" ∨ isLower U r.url.path = true)
    (hhit : slashHit p r.url.path = true)
    (hpre : ∀ q f, (q, f) ∈ pre → (∃ re, regexpCompile q = some re) ∧
      (slashHit q r.url.path = true ∨ entryMatch f q r.url.path = false)) :
    Mux.ServeHTTP U mux r =
      .redirect
        (URL.render ⟨String.mk r.url.path.data.dropLast, r.url.rawQuery⟩)
        308 := by
  have hp : r.url.path ≠ "" := slashHit_path_ne_empty p r.url.path hhit
  unfold Mux.ServeHTTP
  rw [if_neg hstar, hm]
  clear hm
  induction pre with
  | nil => exact serveLoop_cons_slash U r mux.notFound p e post hhit
  | cons qf pre ih =>
    obtain ⟨⟨re, hre⟩, hq⟩ := hpre qf.1 qf.2 (List.mem_cons_self _ _)
    by_cases hsq : slashHit qf.1 r.url.path = true
    · rw [List.cons_append]
      exact serveLoop_cons_slash U r mux.notFound qf.1 qf.2 _ hsq
    · have hsq2 : slashHit qf.1 r.url.path = false :=
        Bool.eq_false_iff.mpr hsq
      have hqm : entryMatch qf.2 qf.1 r.url.path = false := by
        rcases hq with h | h
        · exact absurd h hsq
        · exact h
      rw [List.cons_append]
      rw [serveLoop_cons_skip U r mux.notFound qf.1 qf.2 _ re hre hp hsq2
        hlow hqm]
      exact ih (fun q2 f2 hm2 => hpre q2 f2 (List.mem_cons_of_mem _ hm2))

/-- Witness for C2 (amended): `GET /a/?q=1` against a router holding only
the literal pattern `"/a"` redirects to `/a?q=1` with status 308. -/
theorem serve_trailing_slash_redirect_witness :
    Mux.ServeHTTP asciiUnicode ⟨[("/a", ⟨1, false⟩)], 0⟩
      ⟨"/a/", "GET", ⟨"/a/", "q=1"⟩, 1, 1, []⟩ = .redirect "/a?q=1" 308 := by
  have h := serve_trailing_slash_redirect asciiUnicode
    ⟨[("/a", ⟨1, false⟩)], 0⟩ ⟨"/a/", "GET", ⟨"/a/", "q=1"⟩, 1, 1, []⟩
    [] [] "/a" ⟨1, false⟩ rfl (by decide) (by decide) (by decide)
    (fun q f hmem => absurd hmem (List.not_mem_nil _))
  rw [h]
  decide

/-- Counterexample to C2 as stated: the request `GET /b/` has a trailing
slash and its slash-stripped form `/b` exactly equals the registered
pattern `"/b"`, yet dispatch against the table iterated as
`[("b/", regexp), ("/b", literal)]` invokes handler 1 — the earlier
regexp entry `"b/"` matches the full path `/b/` before the `"/b"` entry's
slash check is ever reached — instead of issuing the 308 redirect to
`/b`. -/
theorem serve_trailing_slash_redirect_counterexample :
    String.mk ("/b/".data.dropLast) = "/b" ∧
    ("/b", MuxEntry.mk 2 false) ∈
      (Mux.mk [("b/", ⟨1, true⟩), ("/b", ⟨2, false⟩)] 0).m ∧
    Mux.ServeHTTP asciiUnicode ⟨[("b/", ⟨1, true⟩), ("/b", ⟨2, false⟩)], 0⟩
        ⟨"/b/", "GET", ⟨"/b/", ""⟩, 1, 1, []⟩
      = .handler 1 ⟨"/b/", "GET", ⟨"/b/", ""⟩, 1, 1, []⟩ ∧
    Mux.ServeHTTP asciiUnicode ⟨[("b/", ⟨1, true⟩), ("/b", ⟨2, false⟩)], 0⟩
        ⟨"/b/", "GET", ⟨"/b/", ""⟩, 1, 1, []⟩
      ≠ .redirect "/b" 308 := by
  refine ⟨by decide, by decide, by decide, by decide⟩

theorem serveLoopNoCase_cons (U : Unicode) (r : Request) (nf : Handler)
    (p : String) (e : MuxEntry) (rest : List (String × MuxEntry)) :
    serveLoopNoCase U r nf ((p, e) :: rest) =
      match urlWithoutSlash r.url.path p r.url with
      | .error pc => .panicked pc
      | .ok (u, true) => .redirect u.render 308
      | .ok (_, false) =>
        if e.regexp then
          match regexpCompile p with
          | none => .panicked (.mustCompile p)
          | some re =>
            if matchString re r.url.path then
              .handler e.handler (addRegexpSubmatchesToContext re r)
            else serveLoopNoCase U r nf rest
        else if r.url.path = p then .handler e.handler r
        else serveLoopNoCase U r nf rest := rfl

/-- When every letter of the path is lower case, the case-redirect branch
is never taken: the dispatch loop agrees with its variant that has no
case check at all. -/
theorem serveLoop_eq_noCase (U : Unicode) (r : Request) (nf : Handler)
    (hl : isLower U r.url.path = true) :
    ∀ l, serveLoop U r nf l = serveLoopNoCase U r nf l := by
  intro l
  induction l with
  | nil => rfl
  | cons pe rest ih =>
    cases pe with
    | mk p e =>
      rw [serveLoop_cons, serveLoopNoCase_cons]
      have hguard : ¬(r.method ≠ "CONNECT" ∧ isLower U r.url.path = false) := by
        intro hx
        rw [hl] at hx
        exact absurd hx.2 (by simp)
      cases hu : urlWithoutSlash r.url.path p r.url with
      | error pc => rfl
      | ok ub =>
        cases ub with
        | mk u b =>
          cases b with
          | true => rfl
          | false =>
            simp only [if_neg hguard]
            rw [ih]

/-- C4 (amended): for a router whose first-iterated entry compiles and
does not slash-hit, a non-CONNECT non-wildcard request with non-empty
path containing a letter that is not lower case (in particular any
upper-case letter) is 308-redirected to the fully lower-cased request
URL; and a path all of whose letters are lower case never takes the case
branch at all (dispatch agrees with the loop that has no case check).
The code tests `unicode.IsLetter && !unicode.IsLower`, so letters with no
case (e.g. CJK ideographs) also trigger the redirect, which is why the
claim's phrase "upper-case letter" needed amending (see the
counterexample). -/
theorem serve_case_redirect (U : Unicode) (mux : Mux) (r : Request)
    (p0 : String) (e0 : MuxEntry) (rest : List (String × MuxEntry))
    (hm : mux.m = (p0, e0) :: rest)
    (hstar : r.requestURI ≠ "*")
    (hre : (regexpCompile p0).isSome = true)
    (hs : slashHit p0 r.url.path = false)
    (hp : r.url.path ≠ "")
    (hconn : r.method ≠ "CONNECT") :
    ((∃ c, c ∈ r.url.path.data ∧ U.isLetter c = true ∧ U.isLower c = false) →
      Mux.ServeHTTP U mux r = .redirect (stringToLower U r.url.render) 308) ∧
    (isLower U r.url.path = true →
      Mux.ServeHTTP U mux r = serveLoopNoCase U r mux.notFound mux.m) := by
  constructor
  · rintro ⟨c, hcmem, hclet, hclow⟩
    have hlow : isLower U r.url.path = false := by
      unfold isLower
      rw [List.all_eq_false]
      exact ⟨c, hcmem, by simp [hclet, hclow]⟩
    unfold Mux.ServeHTTP
    rw [if_neg hstar, hm]
    obtain ⟨re, hre2⟩ := Option.isSome_iff_exists.mp hre
    exact serveLoop_cons_case U r mux.notFound p0 e0 rest re hre2 hp hs
      hconn hlow
  · intro hl
    unfold Mux.ServeHTTP
    rw [if_neg hstar]
    exact serveLoop_eq_noCase U r mux.notFound hl mux.m

/-- Witness for C4 (amended): `GET /Ab?Q=1` against a router holding the
literal pattern `"/x"` redirects to the fully lower-cased URL
`/ab?q=1` (note the query string is lower-cased too, as
`strings.ToLower` is applied to the whole rendered URL). -/
theorem serve_case_redirect_witness :
    Mux.ServeHTTP asciiUnicode ⟨[("/x", ⟨1, false⟩)], 0⟩
      ⟨"/Ab", "GET", ⟨"/Ab", "Q=1"⟩, 1, 1, []⟩ = .redirect "/ab?q=1" 308 := by
  have h := (serve_case_redirect asciiUnicode ⟨[("/x", ⟨1, false⟩)], 0⟩
    ⟨"/Ab", "GET", ⟨"/Ab", "Q=1"⟩, 1, 1, []⟩ "/x" ⟨1, false⟩ [] rfl
    (by decide) (by decide) (by decide) (by decide) (by decide)).1
    ⟨'A', by decide, by decide, by decide⟩
  rw [h]
  decide

/-- Counterexample to C4 as stated: the path `/中` contains no upper-case
letter at all (every character fails `unicode.IsUpper`; Go classifies
`'中'` as a caseless letter: `IsLetter = true`, `IsLower = false`,
`IsUpper = false`, `ToLower('中') = '中'`), yet the non-empty router
issues the case-canonicalization 308 redirect — to the lower-cased URL,
which here equals the original URL — contradicting "a path with no
upper-case letter never triggers this redirect". -/
theorem serve_case_redirect_counterexample :
    ("/中".data.all (fun c => !(cjkUnicode.isUpper c))) = true ∧
    stringToLower cjkUnicode (URL.render ⟨"/中", ""⟩) = "/中" ∧
    Mux.ServeHTTP cjkUnicode ⟨[("/x", ⟨1, false⟩)], 0⟩
        ⟨"/中", "GET", ⟨"/中", ""⟩, 1, 1, []⟩
      = .redirect "/中" 308 := by
  refine ⟨by decide, by decide, by decide⟩

/-- C6 (amended): for a router all of whose entries are literal, whose
patterns all compile as regular expressions and none of which slash-hits
the request path, a non-wildcard request with non-empty all-lower-case
path (or CONNECT method) is dispatched to the handler of the entry whose
pattern exactly equals the path (patterns being distinct), and to the
not-found handler with the original request when no pattern equals the
path.  The extra provisos are forced by the code: an upper-case pattern
can never be reached literally (case redirect fires first — see the
counterexample), a non-compiling pattern panics, and a slash-hitting
entry redirects. -/
theorem serve_literal_dispatch (U : Unicode) (mux : Mux) (r : Request)
    (hstar : r.requestURI ≠ "*")
    (hp : r.url.path ≠ "")
    (hlow : r.method = "CONNECT" ∨ isLower U r.url.path = true)
    (hlit : ∀ q f, (q, f) ∈ mux.m → f.regexp = false ∧
      (regexpCompile q).isSome = true ∧ slashHit q r.url.path = false) :
    (∀ p e, (p, e) ∈ mux.m → r.url.path = p →
      (mux.m.map Prod.fst).Nodup →
      Mux.ServeHTTP U mux r = .handler e.handler r) ∧
    ((∀ q f, (q, f) ∈ mux.m → q ≠ r.url.path) →
      Mux.ServeHTTP U mux r = .notFound r) := by
  have main : ∀ l : List (String × MuxEntry),
      (∀ q f, (q, f) ∈ l → f.regexp = false ∧
        (regexpCompile q).isSome = true ∧ slashHit q r.url.path = false) →
      ((∀ p e, (p, e) ∈ l → r.url.path = p → (l.map Prod.fst).Nodup →
          serveLoop U r mux.notFound l = .handler e.handler r) ∧
        ((∀ q f, (q, f) ∈ l → q ≠ r.url.path) →
          serveLoop U r mux.notFound l = .notFound r)) := by
    intro l
    induction l with
    | nil =>
      intro _
      exact ⟨fun p e hmem => absurd hmem (List.not_mem_nil _), fun _ => rfl⟩
    | cons qf rest ih =>
      intro hl
      cases qf with
      | mk q f =>
        obtain ⟨hreg, hcs, hsh⟩ := hl q f (List.mem_cons_self _ _)
        obtain ⟨re, hre⟩ := Option.isSome_iff_exists.mp hcs
        have ihr := ih (fun q2 f2 hm2 => hl q2 f2 (List.mem_cons_of_mem _ hm2))
        constructor
        · intro p e hmem hpath hnodup
          rcases List.mem_cons.mp hmem with heq | htl
          · injection heq with h1 h2
            subst h1
            subst h2
            exact serveLoop_cons_match_literal U r mux.notFound p e rest re
              hre hp hsh hlow hreg hpath
          · have hqne : ¬(r.url.path = q) := by
              intro hx
              have hnq : q ∉ rest.map Prod.fst := by
                rw [List.map_cons] at hnodup
                exact (List.nodup_cons.mp hnodup).1
              have hkey : p ∈ rest.map Prod.fst :=
                List.mem_map_of_mem Prod.fst htl
              rw [← hpath, hx] at hkey
              exact hnq hkey
            have hem : entryMatch f q r.url.path = false := by
              unfold entryMatch
              rw [hreg]
              simp [hqne]
            rw [serveLoop_cons_skip U r mux.notFound q f rest re hre hp hsh
              hlow hem]
            exact ihr.1 p e htl hpath (by
              rw [List.map_cons] at hnodup
              exact (List.nodup_cons.mp hnodup).2)
        · intro hne
          have hqne : ¬(r.url.path = q) :=
            fun hx => hne q f (List.mem_cons_self _ _) hx.symm
          have hem : entryMatch f q r.url.path = false := by
            unfold entryMatch
            rw [hreg]
            simp [hqne]
          rw [serveLoop_cons_skip U r mux.notFound q f rest re hre hp hsh
            hlow hem]
          exact ihr.2 (fun q2 f2 hm2 => hne q2 f2 (List.mem_cons_of_mem _ hm2))
  constructor
  · intro p e hmem hpath hnodup
    unfold Mux.ServeHTTP
    rw [if_neg hstar]
    exact (main mux.m hlit).1 p e hmem hpath hnodup
  · intro hne
    unfold Mux.ServeHTTP
    rw [if_neg hstar]
    exact (main mux.m hlit).2 hne

/-- Witness for C6 (amended): with only `"/"` registered, `GET /` invokes
its handler and `GET /a` reaches not-found. -/
theorem serve_literal_dispatch_witness :
    Mux.ServeHTTP asciiUnicode ⟨[("/", ⟨1, false⟩)], 0⟩
        ⟨"/", "GET", ⟨"/", ""⟩, 1, 1, []⟩
      = .handler 1 ⟨"/", "GET", ⟨"/", ""⟩, 1, 1, []⟩ ∧
    Mux.ServeHTTP asciiUnicode ⟨[("/", ⟨1, false⟩)], 0⟩
        ⟨"/a", "GET", ⟨"/a", ""⟩, 1, 1, []⟩
      = .notFound ⟨"/a", "GET", ⟨"/a", ""⟩, 1, 1, []⟩ := by
  constructor
  · exact (serve_literal_dispatch asciiUnicode ⟨[("/", ⟨1, false⟩)], 0⟩
      ⟨"/", "GET", ⟨"/", ""⟩, 1, 1, []⟩ (by decide) (by decide)
      (Or.inr (by decide))
      (fun q f hm => by
        simp only [List.mem_singleton] at hm
        injection hm with h1 h2
        subst h1
        subst h2
        exact ⟨rfl, by decide, by decide⟩)).1
      "/" ⟨1, false⟩ (by simp) rfl (by decide)
  · exact (serve_literal_dispatch asciiUnicode ⟨[("/", ⟨1, false⟩)], 0⟩
      ⟨"/a", "GET", ⟨"/a", ""⟩, 1, 1, []⟩ (by decide) (by decide)
      (Or.inr (by decide))
      (fun q f hm => by
        simp only [List.mem_singleton] at hm
        injection hm with h1 h2
        subst h1
        subst h2
        exact ⟨rfl, by decide, by decide⟩)).2
      (fun q f hm => by
        simp only [List.mem_singleton] at hm
        injection hm with h1 h2
        subst h1
        exact (by decide : ("/" : String) ≠ "/a"))

/-- Counterexample to C6 as stated: the literal pattern `"/A"` is
registered and the request path `/A` equals it exactly, yet dispatch
issues the case-canonicalization redirect to `/a` instead of invoking
handler 1, because the (upper-case) path fails the `isLower` check before
the literal match test is reached. -/
theorem serve_literal_dispatch_counterexample :
    ("/A", MuxEntry.mk 1 false) ∈ (Mux.mk [("/A", ⟨1, false⟩)] 0).m ∧
    MuxEntry.regexp ⟨1, false⟩ = false ∧
    Mux.ServeHTTP asciiUnicode ⟨[("/A", ⟨1, false⟩)], 0⟩
        ⟨"/A", "GET", ⟨"/A", ""⟩, 1, 1, []⟩ = .redirect "/a" 308 ∧
    Mux.ServeHTTP asciiUnicode ⟨[("/A", ⟨1, false⟩)], 0⟩
        ⟨"/A", "GET", ⟨"/A", ""⟩, 1, 1, []⟩
      ≠ .handler 1 ⟨"/A", "GET", ⟨"/A", ""⟩, 1, 1, []⟩ := by
  refine ⟨by decide, by decide, by decide, by decide⟩

/-- C7: when a regular-expression entry matches the request path (and the
entries iterated before it neither panic, redirect nor match, the path
being non-empty, all-lower-case or CONNECT), the handler is invoked with
the request augmented by one context binding per named capture group:
looking up a group's name (unique among the non-empty subexpression
names) yields exactly that group's submatch — the empty string when the
group did not participate — while the empty name and any name that is
not a group name resolve as before (unnamed groups and the whole-match
index 0 bind nothing); the URL and method of the request are unchanged. -/
theorem serve_regexp_binds_captures (U : Unicode) (mux : Mux) (r : Request)
    (pre post : List (String × MuxEntry)) (p : String) (e : MuxEntry)
    (re : Re)
    (hm : mux.m = pre ++ (p, e) :: post)
    (hstar : r.requestURI ≠ "*")
    (hp : r.url.path ≠ "")
    (hlow : r.method = "CONNECT" ∨ isLower U r.url.path = true)
    (hpre : ∀ q f, (q, f) ∈ pre → (regexpCompile q).isSome = true ∧
      slashHit q r.url.path = false ∧ entryMatch f q r.url.path = false)
    (hre : regexpCompile p = some re)
    (hsh : slashHit p r.url.path = false)
    (hreg : e.regexp = true)
    (hmatch : matchString re r.url.path = true) :
    Mux.ServeHTTP U mux r =
      .handler e.handler (addRegexpSubmatchesToContext re r) ∧
    (∀ i name, (subexpNames re)[i]? = some name → name ≠ "" →
      (subexpNames re).count name = 1 →
      (addRegexpSubmatchesToContext re r).ctx.lookup name =
        some (((findStringSubmatch re r.url.path).getD []).getD i "")) ∧
    (∀ name, name = "" ∨ name ∉ groupNames re →
      (addRegexpSubmatchesToContext re r).ctx.lookup name =
        r.ctx.lookup name) ∧
    (addRegexpSubmatchesToContext re r).url = r.url ∧
    (addRegexpSubmatchesToContext re r).method = r.method := by
  refine ⟨?_, ?_, ?_, rfl, rfl⟩
  · unfold Mux.ServeHTTP
    rw [if_neg hstar, hm]
    clear hm
    induction pre with
    | nil =>
      exact serveLoop_cons_match_regexp U r mux.notFound p e post re hre hp
        hsh hlow hreg hmatch
    | cons qf pre2 ih =>
      obtain ⟨hcs, hq1, hq2⟩ := hpre qf.1 qf.2 (List.mem_cons_self _ _)
      obtain ⟨re2, hre2⟩ := Option.isSome_iff_exists.mp hcs
      rw [List.cons_append]
      rw [serveLoop_cons_skip U r mux.notFound qf.1 qf.2 _ re2 hre2 hp hq1
        hlow hq2]
      exact ih (fun q2 f2 hm2 => hpre q2 f2 (List.mem_cons_of_mem _ hm2))
  · intro i name hname hnm hcount
    rw [addCtx_spec]
    show ((ctxBindings re r.url.path).reverse ++ r.ctx).lookup name =
      some (((findStringSubmatch re r.url.path).getD []).getD i "")
    have hi0 : ¬(i = 0) := by
      intro hx
      rw [hx] at hname
      have h00 : (subexpNames re)[0]? = some "" := by
        have hsx : subexpNames re = "" :: groupNames re := rfl
        rw [hsx]
        simp
      rw [h00] at hname
      injection hname with h2
      exact hnm h2.symm
    have hmemb : (name, ((findStringSubmatch re r.url.path).getD []).getD i "")
        ∈ ctxBindings re r.url.path := by
      unfold ctxBindings
      apply List.mem_filterMap.mpr
      refine ⟨(i, name), List.mk_mem_enum_iff_getElem?.mpr hname, ?_⟩
      simp [hi0, hnm]
    have huniq : ∀ w, (name, w) ∈ ctxBindings re r.url.path →
        w = ((findStringSubmatch re r.url.path).getD []).getD i "" := by
      intro w hw
      unfold ctxBindings at hw
      obtain ⟨⟨j, nm⟩, hjm, hf⟩ := List.mem_filterMap.mp hw
      by_cases hskip : j = 0 ∨ nm = ""
      · rw [if_pos hskip] at hf
        exact absurd hf (by simp)
      · rw [if_neg hskip] at hf
        injection hf with hf1
        injection hf1 with ha hb
        have hjname : (subexpNames re)[j]? = some name := by
          rw [← ha]
          exact List.mk_mem_enum_iff_getElem?.mp hjm
        have hij : j = i :=
          getElem_unique_of_count_one (subexpNames re) j i name hjname hname
            hcount
        rw [← hb, hij]
    rw [lookup_append_cases name _ r.ctx,
      lookup_of_unique name _ _ (List.mem_reverse.mpr hmemb)
        (fun w hw => huniq w (List.mem_reverse.mp hw))]
  · intro name hname
    rw [addCtx_spec]
    show ((ctxBindings re r.url.path).reverse ++ r.ctx).lookup name =
      r.ctx.lookup name
    have hnk : name ∉ (ctxBindings re r.url.path).reverse.map Prod.fst := by
      intro hx
      rw [List.map_reverse, List.mem_reverse] at hx
      obtain ⟨⟨nm, w⟩, hmem2, hfst⟩ := List.mem_map.mp hx
      unfold ctxBindings at hmem2
      obtain ⟨⟨j, nm2⟩, hjm, hf⟩ := List.mem_filterMap.mp hmem2
      by_cases hskip : j = 0 ∨ nm2 = ""
      · rw [if_pos hskip] at hf
        exact absurd hf (by simp)
      · rw [if_neg hskip] at hf
        injection hf with hf1
        injection hf1 with ha hb
        have ha2 : nm2 = nm := ha
        have hfst2 : nm = name := hfst
        push_neg at hskip
        rcases hname with h0 | h0
        · exact hskip.2 (by rw [ha2, hfst2, h0])
        · have hjget : (subexpNames re)[j]? = some nm2 :=
            List.mk_mem_enum_iff_getElem?.mp hjm
          obtain ⟨j2, hj2⟩ : ∃ j2, j = j2 + 1 :=
            Nat.exists_eq_succ_of_ne_zero hskip.1
          rw [hj2] at hjget
          have hjget2 : (groupNames re)[j2]? = some nm2 := by
            have hsx : subexpNames re = "" :: groupNames re := rfl
            rw [hsx, List.getElem?_cons_succ] at hjget
            exact hjget
          have hginm : nm2 ∈ groupNames re := List.getElem?_mem hjget2
          rw [ha2, hfst2] at hginm
          exact h0 hginm
    rw [lookup_append_cases name _ r.ctx, lookup_of_not_key name _ hnk]

/-- Witness for C7: pattern `/(?P<id>[0-9]+)` on path `/42` binds
`id = "42"`; pattern `/(?P<id>[0-9])` (single digit) on path `/12` binds
`id = "1"`; the handler is invoked with the augmented request. -/
theorem serve_regexp_binds_captures_witness :
    ((addRegexpSubmatchesToContext
        ((regexpCompile "/(?P<id>[0-9]+)").getD .eps)
        ⟨"/42", "GET", ⟨"/42", ""⟩, 1, 1, []⟩).ctx.lookup "id"
      = some "42") ∧
    ((addRegexpSubmatchesToContext
        ((regexpCompile "/(?P<id>[0-9])").getD .eps)
        ⟨"/12", "GET", ⟨"/12", ""⟩, 1, 1, []⟩).ctx.lookup "id"
      = some "1") ∧
    Mux.ServeHTTP asciiUnicode ⟨[("/(?P<id>[0-9]+)", ⟨5, true⟩)], 0⟩
        ⟨"/42", "GET", ⟨"/42", ""⟩, 1, 1, []⟩
      = .handler 5 (addRegexpSubmatchesToContext
          ((regexpCompile "/(?P<id>[0-9]+)").getD .eps)
          ⟨"/42", "GET", ⟨"/42", ""⟩, 1, 1, []⟩) := by
  have h1 := serve_regexp_binds_captures asciiUnicode
    ⟨[("/(?P<id>[0-9]+)", ⟨5, true⟩)], 0⟩
    ⟨"/42", "GET", ⟨"/42", ""⟩, 1, 1, []⟩
    [] [] "/(?P<id>[0-9]+)" ⟨5, true⟩
    ((regexpCompile "/(?P<id>[0-9]+)").getD .eps)
    rfl (by decide) (by decide) (Or.inr (by decide))
    (fun q f hm => absurd hm (List.not_mem_nil _))
    (by decide) (by decide) rfl (by decide)
  have h2 := serve_regexp_binds_captures asciiUnicode
    ⟨[("/(?P<id>[0-9])", ⟨5, true⟩)], 0⟩
    ⟨"/12", "GET", ⟨"/12", ""⟩, 1, 1, []⟩
    [] [] "/(?P<id>[0-9])" ⟨5, true⟩
    ((regexpCompile "/(?P<id>[0-9])").getD .eps)
    rfl (by decide) (by decide) (Or.inr (by decide))
    (fun q f hm => absurd hm (List.not_mem_nil _))
    (by decide) (by decide) rfl (by decide)
  refine ⟨?_, ?_, h1.1⟩
  · have hl := h1.2.1 1 "id" (by decide) (by decide) (by decide)
    rw [hl]
    decide
  · have hl := h2.2.1 1 "id" (by decide) (by decide) (by decide)
    rw [hl]
    decide
